import Mathlib

/-!
Shallow embedding of the `ccache_stats_reader` crate
(`src/cache_field.rs` and `src/lib.rs`) and proofs about it.

Conventions used throughout the embedding:
* `u64` values are `Nat`; where the source can overflow or truncate this is
  modelled explicitly.
* The filesystem is a function `Path → FsEntry` (a path either fails to open
  with an I/O error, is a directory, or is a regular file with a modification
  time and a list of raw lines, each raw line being exactly what one
  `BufRead::read_line` call appends: terminator included).
* Timestamps are seconds since the epoch as `Nat` (`Metadata::modified()`
  goes through `duration_since(UNIX_EPOCH).as_secs()`, which is never
  negative).
* The rendering of an in-range timestamp by `chrono`'s
  `Local.timestamp(ts, 0)` is an external-library concern; it is abstracted
  as a parameter `tsRender : Int → String` of the formatting functions.
* Rust `f64` values arising in `CacheField::format_value` are always
  integral (a `u64` parsed to the nearest double), so they are modelled
  exactly as `Nat` via `f64ofNat`; the divisions by `1024.0` are exact in
  binary floating point and `{:.N}` formatting rounds the exact value half
  to even, modelled by `fmtFixed2`.
-/

namespace CcacheStats

/-- Rust `CacheFieldFormat` from `cache_field.rs`: which formatting a field uses. -/
inductive CacheFieldFormat
  | None
  | TimeStamp
  | SizeTimes1024
deriving DecidableEq, Repr

/-- Rust `FLAG_NONE` from `cache_field.rs`. -/
def FLAG_NONE : Nat := 0
/-- Rust `FLAG_NOZERO` from `cache_field.rs`. -/
def FLAG_NOZERO : Nat := 1
/-- Rust `FLAG_ALWAYS` from `cache_field.rs`. -/
def FLAG_ALWAYS : Nat := 2
/-- Rust `FLAG_NEVER` from `cache_field.rs`. -/
def FLAG_NEVER : Nat := 4

/-- Rust `CacheFieldMeta` from `cache_field.rs` (`&'static str`s become `String`). -/
structure CacheFieldMeta where
  id      : String
  message : String
  format  : CacheFieldFormat
  flags   : Nat
deriving DecidableEq, Repr

/-- Rust `CacheFieldMeta::is_flag_always`. -/
def CacheFieldMeta.is_flag_always (m : CacheFieldMeta) : Bool :=
  m.flags &&& FLAG_ALWAYS == FLAG_ALWAYS

/-- Rust `CacheFieldMeta::is_flag_never`. -/
def CacheFieldMeta.is_flag_never (m : CacheFieldMeta) : Bool :=
  m.flags &&& FLAG_NEVER == FLAG_NEVER

/-- Rust `CacheField` from `cache_field.rs`: the 32 statistics fields, with the
same discriminants (recorded by `as_usize` below). -/
inductive CacheField
  | None
  | StdOut
  | Status
  | Error
  | ToCache
  | PreProcessor
  | Compiler
  | Missing
  | CacheHitCpp
  | Args
  | Link
  | NumFiles
  | TotalSize
  | ObsoleteMaxFiles
  | ObsoleteMaxSize
  | SourceLang
  | BadOutputFile
  | NoInput
  | Multiple
  | ConfTest
  | UnsupportedOption
  | OutStdOut
  | CacheHitDir
  | NoOutput
  | EmptyOutput
  | BadExtraFile
  | CompCheck
  | CantUsePch
  | PreProcessing
  | NumCleanUps
  | UnsupportedDirective
  | ZeroTimeStamp
deriving DecidableEq, Repr, Fintype

/-- Rust `CacheField::as_usize`: the enum's integer discriminant, as declared in
`cache_field.rs` (`None = 0`, …, `ZeroTimeStamp = 31`). -/
def CacheField.as_usize : CacheField → Nat
  | .None => 0
  | .StdOut => 1
  | .Status => 2
  | .Error => 3
  | .ToCache => 4
  | .PreProcessor => 5
  | .Compiler => 6
  | .Missing => 7
  | .CacheHitCpp => 8
  | .Args => 9
  | .Link => 10
  | .NumFiles => 11
  | .TotalSize => 12
  | .ObsoleteMaxFiles => 13
  | .ObsoleteMaxSize => 14
  | .SourceLang => 15
  | .BadOutputFile => 16
  | .NoInput => 17
  | .Multiple => 18
  | .ConfTest => 19
  | .UnsupportedOption => 20
  | .OutStdOut => 21
  | .CacheHitDir => 22
  | .NoOutput => 23
  | .EmptyOutput => 24
  | .BadExtraFile => 25
  | .CompCheck => 26
  | .CantUsePch => 27
  | .PreProcessing => 28
  | .NumCleanUps => 29
  | .UnsupportedDirective => 30
  | .ZeroTimeStamp => 31

/-- The discriminant as an element of `Fin 32` (every discriminant is `< 32`),
used for array indexing as in `CacheFieldData`. -/
def CacheField.as_fin (f : CacheField) : Fin 32 :=
  ⟨f.as_usize, by cases f <;> decide⟩

/-- Rust `CacheField::metadata` from `cache_field.rs`: the per-field static
metadata table, copied arm by arm from the source. -/
def CacheField.metadata : CacheField → CacheFieldMeta
  | .ZeroTimeStamp =>
    { id := "stats_zeroed_timestamp", message := "stats zeroed",
      format := .TimeStamp, flags := FLAG_ALWAYS }
  | .CacheHitDir =>
    { id := "direct_cache_hit", message := "cache hit (direct)",
      format := .None, flags := FLAG_ALWAYS }
  | .CacheHitCpp =>
    { id := "preprocessed_cache_hit", message := "cache hit (preprocessed)",
      format := .None, flags := FLAG_ALWAYS }
  | .ToCache =>
    { id := "cache_miss", message := "cache miss",
      format := .None, flags := FLAG_ALWAYS }
  | .Link =>
    { id := "called_for_link", message := "called for link",
      format := .None, flags := FLAG_ALWAYS }
  | .PreProcessing =>
    { id := "called_for_preprocessing", message := "called for preprocessing",
      format := .None, flags := FLAG_ALWAYS }
  | .Multiple =>
    { id := "multiple_source_files", message := "multiple source files",
      format := .None, flags := FLAG_NONE }
  | .StdOut =>
    { id := "compiler_produced_stdout", message := "compiler produced stdout",
      format := .None, flags := FLAG_NONE }
  | .NoOutput =>
    { id := "compiler_produced_no_output",
      message := "compiler produced no output",
      format := .None, flags := FLAG_NONE }
  | .EmptyOutput =>
    { id := "compiler_produced_empty_output",
      message := "compiler produced empty output",
      format := .None, flags := FLAG_NONE }
  | .Status =>
    { id := "compile_failed", message := "compile failed",
      format := .None, flags := FLAG_NONE }
  | .Error =>
    { id := "internal_error", message := "ccache internal error",
      format := .None, flags := FLAG_NONE }
  | .PreProcessor =>
    { id := "preprocessor_error", message := "preprocessor error",
      format := .None, flags := FLAG_NONE }
  | .CantUsePch =>
    { id := "could_not_use_precompiled_header",
      message := "can't use precompiled header",
      format := .None, flags := FLAG_NONE }
  | .Compiler =>
    { id := "could_not_find_compiler", message := "couldn't find the compiler",
      format := .None, flags := FLAG_NONE }
  | .Missing =>
    { id := "missing_cache_file", message := "cache file missing",
      format := .None, flags := FLAG_NONE }
  | .Args =>
    { id := "bad_compiler_arguments", message := "bad compiler arguments",
      format := .None, flags := FLAG_NONE }
  | .SourceLang =>
    { id := "unsupported_source_language",
      message := "unsupported source language",
      format := .None, flags := FLAG_NONE }
  | .CompCheck =>
    { id := "compiler_check_failed", message := "compiler check failed",
      format := .None, flags := FLAG_NONE }
  | .ConfTest =>
    { id := "autoconf_test", message := "autoconf compile/link",
      format := .None, flags := FLAG_NONE }
  | .UnsupportedOption =>
    { id := "unsupported_compiler_option",
      message := "unsupported compiler option",
      format := .None, flags := FLAG_NONE }
  | .UnsupportedDirective =>
    { id := "unsupported_code_directive",
      message := "unsupported code directive",
      format := .None, flags := FLAG_NONE }
  | .OutStdOut =>
    { id := "output_to_stdout", message := "output to stdout",
      format := .None, flags := FLAG_NONE }
  | .BadOutputFile =>
    { id := "bad_output_file", message := "could not write to output file",
      format := .None, flags := FLAG_NONE }
  | .NoInput =>
    { id := "no_input_file", message := "no input file",
      format := .None, flags := FLAG_NONE }
  | .BadExtraFile =>
    { id := "error_hashing_extra_file", message := "error hashing extra file",
      format := .None, flags := FLAG_NONE }
  | .NumCleanUps =>
    { id := "cleanups_performed", message := "cleanups performed",
      format := .None, flags := FLAG_ALWAYS }
  | .NumFiles =>
    { id := "files_in_cache", message := "files in cache",
      format := .None, flags := FLAG_NOZERO ||| FLAG_ALWAYS }
  | .TotalSize =>
    { id := "cache_size_kibibyte", message := "cache size",
      format := .SizeTimes1024, flags := FLAG_NOZERO ||| FLAG_ALWAYS }
  | .ObsoleteMaxFiles =>
    { id := "obsolete_max_files", message := "(obsolete) max files",
      format := .None, flags := FLAG_NOZERO ||| FLAG_NEVER }
  | .ObsoleteMaxSize =>
    { id := "obsolete_max_size", message := "(obsolete) max size",
      format := .None, flags := FLAG_NOZERO ||| FLAG_NEVER }
  | .None =>
    { id := "internal_none", message := "(internal) none",
      format := .None, flags := FLAG_NONE ||| FLAG_NEVER }

/-- Rust `CacheFieldData` from `cache_field.rs`: `items: [u64; 32]`, the
ordinal-indexed value store. -/
structure CacheFieldData where
  items : Fin 32 → Nat

instance : Inhabited CacheFieldData := ⟨⟨fun _ => 0⟩⟩

instance : DecidableEq CacheFieldData := fun a b =>
  decidable_of_iff (a.items = b.items) (by cases a; cases b; simp)

/-- Rust `CacheFieldData::set_field`: `self.items[f.as_usize()] = v`. -/
def CacheFieldData.set_field (d : CacheFieldData) (f : CacheField) (v : Nat) :
    CacheFieldData :=
  ⟨Function.update d.items f.as_fin v⟩

/-- Rust `CacheFieldData::get_field`: `self.items[f.as_usize()]`. -/
def CacheFieldData.get_field (d : CacheFieldData) (f : CacheField) : Nat :=
  d.items f.as_fin

/-- Rust `FIELD_DATA_ORDER` from `cache_field.rs`: the fields in the order their
values appear in a stats file (the i-th entry has discriminant i). -/
def FIELD_DATA_ORDER : List CacheField := [
  .None, .StdOut, .Status, .Error, .ToCache, .PreProcessor, .Compiler,
  .Missing, .CacheHitCpp, .Args, .Link, .NumFiles, .TotalSize,
  .ObsoleteMaxFiles, .ObsoleteMaxSize, .SourceLang, .BadOutputFile, .NoInput,
  .Multiple, .ConfTest, .UnsupportedOption, .OutStdOut, .CacheHitDir,
  .NoOutput, .EmptyOutput, .BadExtraFile, .CompCheck, .CantUsePch,
  .PreProcessing, .NumCleanUps, .UnsupportedDirective, .ZeroTimeStamp]

/-- Rust `FIELD_DISPLAY_ORDER` from `cache_field.rs`: the order used when
printing for end-user consumption. -/
def FIELD_DISPLAY_ORDER : List CacheField := [
  .ZeroTimeStamp, .CacheHitDir, .CacheHitCpp, .ToCache, .Link,
  .PreProcessing, .Multiple, .StdOut, .NoOutput, .EmptyOutput, .Status,
  .Error, .PreProcessor, .CantUsePch, .Compiler, .Missing, .Args,
  .SourceLang, .CompCheck, .ConfTest, .UnsupportedOption,
  .UnsupportedDirective, .OutStdOut, .BadOutputFile, .NoInput, .BadExtraFile,
  .NumCleanUps, .NumFiles, .TotalSize, .ObsoleteMaxFiles, .ObsoleteMaxSize,
  .None]

/-! ## Filesystem model and error type (`lib.rs`) -/

/-- A filesystem path (`std::path::PathBuf`), as a list of components;
`PathBuf::join` is appending a component. -/
abbrev FsPath := List String

/-- The kind of a `std::io::Error`, as far as this crate inspects it
(`io.kind() == std::io::ErrorKind::NotFound` is the only test performed;
all other kinds are lumped together here as representatives). -/
inductive IoErrorKind
  | notFound
  | permissionDenied
  | other
deriving DecidableEq, Repr

/-- Rust `ErrorKind` from `lib.rs`. The payloads of `IoError` and `SysTime`
are reduced to what the crate itself can observe. -/
inductive ErrorKind
  | IoError (kind : IoErrorKind)
  | Stringy (s : String)
  | SysTime
  | ParseU64Error (input_value : String) (input_line : Nat)
      (input_file : FsPath)
  | CacheLeafNonFile (input_path : FsPath)
deriving DecidableEq, Repr

/-- What a path resolves to in the modelled filesystem: opening it fails
with an I/O error, or it is a directory, or a regular file with a
modification time (seconds since epoch) and the sequence of raw lines that
successive `read_line` calls return (each raw line still carries its
terminator; the list is empty for an empty file). -/
inductive FsEntry
  | ioErr (kind : IoErrorKind)
  | dir
  | file (mtime : Nat) (lines : List String)
deriving DecidableEq, Repr

/-- The modelled filesystem: what each path resolves to. -/
abbrev Fs := FsPath → FsEntry

/-! ## Leaf parsing (`CacheLeaf::read_file`) -/

/-- One step of Rust's `u64::from_str` digit loop: accumulate decimal
digits, failing on any non-digit character. -/
def parseU64Digits : List Char → Nat → Option Nat
  | [], acc => some acc
  | c :: cs, acc =>
    if c.isDigit then parseU64Digits cs (acc * 10 + (c.toNat - 48))
    else none

/-- Rust's `str::parse::<u64>()`: an optional leading `+`, then one or more
decimal digits, and the value must fit in 64 bits (Rust fails on overflow;
checking the final value against `2^64` is equivalent). -/
def parseU64 (s : String) : Option Nat :=
  let cs := s.toList
  let cs := match cs with
    | '+' :: rest => rest
    | _ => cs
  if cs.isEmpty then none
  else match parseU64Digits cs 0 with
    | some v => if v < 2 ^ 64 then some v else none
    | none => none

/-- The trailing-linefeed trimming in `CacheLeaf::read_file`: pop a final
`\n`, and then a final `\r` if one precedes it (`ends_with` is expressed
through the last character so that the definition evaluates by kernel
reduction). -/
def trimNewline (s : String) : String :=
  if s.data.getLast? = some '\n' then
    let s1 := s.dropRight 1
    if s1.data.getLast? = some '\r' then s1.dropRight 1 else s1
  else s

/-- Rust `CacheLeaf` from `lib.rs`: one parsed stats file. -/
structure CacheLeaf where
  fields : CacheFieldData
  mtime  : Nat
deriving DecidableEq

/-- Rust `Default for CacheLeaf`: zero fields, epoch mtime. -/
instance : Inhabited CacheLeaf := ⟨⟨default, 0⟩⟩

/-- The `for field in FIELD_DATA_ORDER` read loop of `CacheLeaf::read_file`:
consume one raw line per remaining field, stopping early at end of input
(`Ok(0) => break`), trimming the terminator, parsing a `u64` and storing it,
or failing with `ParseU64Error` carrying the trimmed text, the field's
ordinal, and the path. -/
def readFieldsLoop (f : FsPath) :
    List CacheField → List String → CacheFieldData →
    Except ErrorKind CacheFieldData
  | [], _, acc => .ok acc
  | _, [], acc => .ok acc
  | field :: restFields, line :: restLines, acc =>
    let buf := trimNewline line
    match parseU64 buf with
    | some v => readFieldsLoop f restFields restLines (acc.set_field field v)
    | none => .error (.ParseU64Error buf field.as_usize f)

/-- Rust `CacheLeaf::read_file` from `lib.rs`: open the path (propagating I/O
errors), reject directories with `CacheLeafNonFile`, capture the mtime, and
run the field read loop over `FIELD_DATA_ORDER`. -/
def CacheLeaf.read_file (fs : Fs) (f : FsPath) :
    Except ErrorKind CacheLeaf :=
  match fs f with
  | .ioErr kind => .error (.IoError kind)
  | .dir => .error (.CacheLeafNonFile f)
  | .file mtime lines =>
    match readFieldsLoop f FIELD_DATA_ORDER lines default with
    | .ok fields => .ok { fields := fields, mtime := mtime }
    | .error e => .error e

/-! ## Directory aggregation (`CacheDir`) -/

/-- Rust `CacheDir` from `lib.rs`: the aggregated snapshot. -/
structure CacheDir where
  fields : CacheFieldData
  mtime  : Nat
deriving DecidableEq

/-- Rust `Default for CacheDir`: zero fields, epoch mtime. -/
instance : Inhabited CacheDir := ⟨⟨default, 0⟩⟩

/-- Rust `CacheDir::stash_field` from `lib.rs`: `ZeroTimeStamp` keeps the larger
value (the source's `match field` with a catch-all arm is embedded as an
equality test, which matches exactly the same inputs); every other field
accumulates additively with `u64` addition, which wraps modulo `2^64` in a
release build (a debug build would panic on overflow), so the sum is
reduced modulo `2^64` here. -/
def CacheDir.stash_field (me : CacheDir) (field : CacheField) (value : Nat) :
    CacheDir :=
  let current_value := me.fields.get_field field
  if field = .ZeroTimeStamp then
    if value > current_value then
      { me with fields := me.fields.set_field field value }
    else me
  else
    { me with fields :=
        me.fields.set_field field ((current_value + value) % 2 ^ 64) }

/-- Rust `CacheDir::merge_leaf` from `lib.rs`: stash every field of the leaf in
data order, then take the later mtime. -/
def CacheDir.merge_leaf (me : CacheDir) (leaf : CacheLeaf) : CacheDir :=
  let me' := FIELD_DATA_ORDER.foldl
    (fun m field => m.stash_field field (leaf.fields.get_field field)) me
  if me'.mtime < leaf.mtime then { me' with mtime := leaf.mtime } else me'

/-- Rust `CacheDir::add_leaf` from `lib.rs`: read one leaf and merge it;
a `NotFound` I/O error is swallowed (the snapshot is left unchanged), any
other error is returned. -/
def CacheDir.add_leaf (fs : Fs) (me : CacheDir) (f : FsPath) :
    Except ErrorKind CacheDir :=
  match CacheLeaf.read_file fs f with
  | .ok leaf => .ok (me.merge_leaf leaf)
  | .error e =>
    match e with
    | .IoError .notFound => .ok me
    | _ => .error e

/-- The sixteen shard directory names produced by
`std::char::from_digit(i, 16)` for `i in 0..=0xF` in `CacheDir::read_dir`. -/
def HEX_DIGITS : List String :=
  ["0", "1", "2", "3", "4", "5", "6", "7",
   "8", "9", "a", "b", "c", "d", "e", "f"]

/-- The `add_leaf` calls of `CacheDir::read_dir` over a list of paths, with
the early return of Rust's `?` operator: stop at the first error. -/
def addLeavesLoop (fs : Fs) (me : CacheDir) :
    List FsPath → Except ErrorKind CacheDir
  | [] => .ok me
  | p :: ps =>
    match CacheDir.add_leaf fs me p with
    | .ok me' => addLeavesLoop fs me' ps
    | .error e => .error e

/-- Rust `CacheDir::read_dir` from `lib.rs`: start from the default snapshot,
add the root `stats` leaf, then the sixteen `<hex>/stats` leaves in
ascending digit order, propagating the first error (`?`). -/
def CacheDir.read_dir (fs : Fs) (dir : FsPath) : Except ErrorKind CacheDir :=
  addLeavesLoop fs default
    ((dir ++ ["stats"]) :: HEX_DIGITS.map (fun c => dir ++ [c, "stats"]))

/-- The 17 candidate stats paths that `CacheDir::read_dir` attempts, in
the order it attempts them. -/
def candidatePaths (dir : FsPath) : List FsPath :=
  (dir ++ ["stats"]) :: HEX_DIGITS.map (fun c => dir ++ [c, "stats"])

/-! ## Value formatting (`CacheField::format_value`) -/

/-- Helper for `bitLen`: fuel-based binary length. -/
def bitLenFuel : Nat → Nat → Nat
  | 0, _ => 0
  | fuel + 1, n => if n = 0 then 0 else bitLenFuel fuel (n / 2) + 1

/-- The number of binary digits of `n` (`0` for `0`): fuel-based structural
recursion so that it evaluates by kernel reduction; `n` itself is always
enough fuel. -/
def bitLen (n : Nat) : Nat := bitLenFuel n n

/-- Rust's `str::parse::<f64>()` applied to the decimal string of a `u64`:
the nearest IEEE-754 double, ties to even mantissa. Every such double is an
integer (values below `2^53` are exact; larger ones are rounded to a
multiple of a power of two), so it is returned as a `Nat`. -/
def f64ofNat (v : Nat) : Nat :=
  if v < 2 ^ 53 then v
  else
    let e := bitLen v
    let step := 2 ^ (e - 53)
    let q := v / step
    let r := v % step
    if 2 * r < step then q * step
    else if 2 * r > step then (q + 1) * step
    else if q % 2 = 0 then q * step else (q + 1) * step

/-- Rust's `format!("{:.2}", x)` for `x = num / den` with `den` a power of
two (so `x` is exactly representable and the formatter rounds the exact
value): round to hundredths, ties to even, and render with exactly two
decimals. -/
def fmtFixed2 (num den : Nat) : String :=
  let q := num * 100 / den
  let r := num * 100 % den
  let c :=
    if 2 * r > den then q + 1
    else if 2 * r < den then q
    else if q % 2 = 0 then q else q + 1
  let frac := c % 100
  toString (c / 100) ++ "." ++
    (if frac < 10 then "0" ++ toString frac else toString frac)

/-- Rust `CacheField::format_value` from `cache_field.rs`.

`tsRender` abstracts the `chrono` rendering `format!("{}", Local.timestamp(ts, 0))`
of an in-range timestamp (external library, local-timezone dependent);
note that `Local.timestamp` itself panics for seconds values that fit an
`i64` but exceed chrono's representable range, which this total function
cannot express — `format_value_with_chrono` below models that panic
faithfully. The source's `value.to_string().parse::<i64>()` succeeds
exactly when the `u64` fits in an `i64` (`value < 2^63`); its
`value.to_string().parse::<f64>()` never fails and yields the nearest
double (`f64ofNat`), after which the comparisons with
`1024.0 * SIZE_SCALE_THRESHOLD` and the exact divisions by `1024.0` are as
modelled here. -/
def CacheField.format_value (tsRender : Int → String) (self : CacheField)
    (value : Nat) : String :=
  match self.metadata.format with
  | .None => toString value
  | .TimeStamp =>
    if value < 2 ^ 63 then tsRender (Int.ofNat value)
    else toString value ++ " (ts)"
  | .SizeTimes1024 =>
    let size := f64ofNat value
    if size < 1024 * 10 then toString size ++ " Kb"
    else if size < 1024 * 1024 * 10 then fmtFixed2 size 1024 ++ " Mb"
    else fmtFixed2 size (1024 * 1024) ++ " Gb"

/-- Modelled from chrono 0.4 (an external dependency, not code of this
repository): the smallest seconds-since-epoch value `NaiveDateTime` can
represent (midnight of `NaiveDate::MIN`, January 1 of year −262144 in the
proleptic Gregorian calendar). -/
def CHRONO_MIN_TIMESTAMP_SECS : Int := -8334632937600

/-- Modelled from chrono 0.4: the largest seconds-since-epoch value
`NaiveDateTime` can represent (23:59:59 of `NaiveDate::MAX`, December 31
of year 262143). -/
def CHRONO_MAX_TIMESTAMP_SECS : Int := 8210298412799

/-- Modelled from chrono 0.4: `TimeZone::timestamp(secs, 0)` is
`timestamp_opt(secs, 0).unwrap()`, which panics when `secs` lies outside
the `NaiveDateTime` range above (an input coming from a `u64` can only
exceed the upper bound). -/
def chronoTimestampPanics (secs : Int) : Bool :=
  decide (secs < CHRONO_MIN_TIMESTAMP_SECS ∨
    CHRONO_MAX_TIMESTAMP_SECS < secs)

/-- Rust `CacheField::format_value` as actually executed with `chrono`'s
`Local.timestamp(ts, 0)` in the `TimeStamp` branch: `none` models the
panic of the `unwrap` inside that call for values that fit an `i64` but
exceed chrono's representable range; every other path returns `some` of
the same string as `format_value` (whose `tsRender` parameter abstracts
only the successful rendering). -/
def CacheField.format_value_with_chrono (tsRender : Int → String)
    (self : CacheField) (value : Nat) : Option String :=
  match self.metadata.format with
  | .TimeStamp =>
    if value < 2 ^ 63 then
      if chronoTimestampPanics (Int.ofNat value) then none
      else some (tsRender (Int.ofNat value))
    else some (toString value ++ " (ts)")
  | _ => some (self.format_value tsRender value)

/-! ## Presentation (`CacheFieldCollection`) -/

/-- Rust `format!("{:<30}", s)`-style left alignment: pad on the right with
spaces up to the width (never truncates). -/
def padRight (s : String) (w : Nat) : String :=
  s ++ String.mk (List.replicate (w - s.length) ' ')

/-- Rust `format!("{:>9}", s)`-style right alignment: pad on the left with
spaces up to the width (never truncates). -/
def padLeft (s : String) (w : Nat) : String :=
  String.mk (List.replicate (w - s.length) ' ') ++ s

/-- Rust `CacheFieldCollection::iter`: the `(field, value)` pairs in display
order. -/
def iterDisplay (c : CacheFieldData) : List (CacheField × Nat) :=
  FIELD_DISPLAY_ORDER.map fun field => (field, c.get_field field)

/-- Rust `CacheFieldCollection::write_raw` from `lib.rs`, modelled as the list
of lines written to the sink (each `writeln!` appends one line): the
`stats_updated_timestamp` header, then `"<id>\t<value>"` for each
display-order field, `continue`-skipping `NeverShow` fields. -/
def write_raw (c : CacheFieldData) (mtime : Nat) : List String :=
  (iterDisplay c).foldl
    (fun out fv =>
      if fv.1.metadata.is_flag_never then out
      else out ++ [fv.1.metadata.id ++ "\t" ++ toString fv.2])
    ["stats_updated_timestamp\t" ++ toString mtime]

/-- Rust `CacheFieldCollection::write_pretty` from `lib.rs`, modelled as the
list of lines written to the sink: the `stats updated` header, then a
formatted line per display-order field, `continue`-skipping `NeverShow`
fields and fields whose value is zero unless flagged `AlwaysShow`.
`tsRender` abstracts the localized header timestamp rendering as in
`CacheField.format_value`. -/
def write_pretty (tsRender : Int → String) (c : CacheFieldData)
    (mtime : Nat) : List String :=
  (iterDisplay c).foldl
    (fun out fv =>
      let meta := fv.1.metadata
      if meta.is_flag_never then out
      else if !meta.is_flag_always && fv.2 == 0 then out
      else out ++ [padRight meta.message 30 ++ " " ++
        padLeft (fv.1.format_value tsRender fv.2) 9])
    [padRight "stats updated" 30 ++ " " ++
      padLeft (tsRender (Int.ofNat mtime)) 9]

/-- Modelled from the spec: the KibibytesScaled rendering rule of §4.1 and
§8 applied to the exact value `v` ("If < 10×1024, render as `<value> Kb`.
Else if < 10×1024×1024, render as `<value/1024, 2 decimals> Mb`. Else
render as `<value/1024/1024, 2 decimals> Gb`."), used to compare the code's
`format_value` against the spec's words. -/
def specKibibytesRender (v : Nat) : String :=
  if v < 10 * 1024 then toString v ++ " Kb"
  else if v < 10 * 1024 * 1024 then fmtFixed2 v 1024 ++ " Mb"
  else fmtFixed2 v (1024 * 1024) ++ " Gb"

/-! ## Basic lemmas: value store, ordinals, stash/merge -/

lemma CacheField.as_usize_injective :
    ∀ f g : CacheField, f.as_usize = g.as_usize → f = g := by decide

lemma CacheField.as_fin_injective (f g : CacheField)
    (h : f.as_fin = g.as_fin) : f = g :=
  CacheField.as_usize_injective f g (congrArg Fin.val h)

lemma CacheFieldData.get_set_self (d : CacheFieldData) (f : CacheField)
    (v : Nat) : (d.set_field f v).get_field f = v := by
  simp [CacheFieldData.set_field, CacheFieldData.get_field]

lemma CacheFieldData.get_set_ne (d : CacheFieldData) (f g : CacheField)
    (v : Nat) (h : g ≠ f) :
    (d.set_field f v).get_field g = d.get_field g := by
  have hf : g.as_fin ≠ f.as_fin := fun hf =>
    h (CacheField.as_fin_injective g f hf)
  simp [CacheFieldData.set_field, CacheFieldData.get_field,
    Function.update_noteq hf]

lemma CacheDir.default_fields_get (g : CacheField) :
    (default : CacheDir).fields.get_field g = 0 := rfl

lemma CacheDir.default_mtime : (default : CacheDir).mtime = 0 := rfl

instance {ε α : Type} [DecidableEq ε] [DecidableEq α] :
    DecidableEq (Except ε α) := fun x y =>
  match x, y with
  | .ok a, .ok b =>
    if h : a = b then .isTrue (by rw [h])
    else .isFalse (fun hc => h (Except.ok.inj hc))
  | .error a, .error b =>
    if h : a = b then .isTrue (by rw [h])
    else .isFalse (fun hc => h (Except.error.inj hc))
  | .ok _, .error _ => .isFalse (fun hc => Except.noConfusion hc)
  | .error _, .ok _ => .isFalse (fun hc => Except.noConfusion hc)

lemma data_order_nodup : FIELD_DATA_ORDER.Nodup := by decide

lemma mem_data_order (g : CacheField) : g ∈ FIELD_DATA_ORDER := by
  have h : ∀ g : CacheField, g ∈ FIELD_DATA_ORDER := by decide
  exact h g

lemma CacheDir.stash_get_self (me : CacheDir) (field : CacheField)
    (v : Nat) :
    (me.stash_field field v).fields.get_field field =
      if field = .ZeroTimeStamp then max (me.fields.get_field field) v
      else (me.fields.get_field field + v) % 2 ^ 64 := by
  simp only [CacheDir.stash_field]
  split_ifs with h1 h2
  · simp only [CacheFieldData.get_set_self]
    rw [Nat.max_def]
    split_ifs <;> omega
  · rw [Nat.max_def]
    split_ifs <;> omega
  · simp only [CacheFieldData.get_set_self]

lemma CacheDir.stash_get_ne (me : CacheDir) (field g : CacheField)
    (v : Nat) (h : g ≠ field) :
    (me.stash_field field v).fields.get_field g = me.fields.get_field g := by
  simp only [CacheDir.stash_field]
  split_ifs <;> simp [CacheFieldData.get_set_ne _ _ _ _ h]

lemma CacheDir.stash_mtime (me : CacheDir) (field : CacheField) (v : Nat) :
    (me.stash_field field v).mtime = me.mtime := by
  simp only [CacheDir.stash_field]
  split_ifs <;> rfl

lemma CacheDir.foldl_stash_get_not_mem (lf : CacheLeaf)
    (L : List CacheField) (me : CacheDir) (g : CacheField) (h : g ∉ L) :
    (L.foldl (fun m field =>
        m.stash_field field (lf.fields.get_field field)) me).fields.get_field g
      = me.fields.get_field g := by
  induction L generalizing me with
  | nil => rfl
  | cons a L ih =>
    simp only [List.mem_cons, not_or] at h
    simp only [List.foldl_cons]
    rw [ih _ h.2, CacheDir.stash_get_ne _ _ _ _ h.1]

lemma CacheDir.foldl_stash_get_mem (lf : CacheLeaf) (L : List CacheField)
    (me : CacheDir) (g : CacheField) (hnd : L.Nodup) (h : g ∈ L) :
    (L.foldl (fun m field =>
        m.stash_field field (lf.fields.get_field field)) me).fields.get_field g
      = if g = .ZeroTimeStamp
        then max (me.fields.get_field g) (lf.fields.get_field g)
        else (me.fields.get_field g + lf.fields.get_field g) % 2 ^ 64 := by
  induction L generalizing me with
  | nil => cases h
  | cons a L ih =>
    simp only [List.foldl_cons]
    rcases List.mem_cons.mp h with rfl | hmem
    · have hg : g ∉ L := (List.nodup_cons.mp hnd).1
      rw [CacheDir.foldl_stash_get_not_mem lf L _ g hg,
        CacheDir.stash_get_self]
    · have hga : g ≠ a := by
        rintro rfl
        exact (List.nodup_cons.mp hnd).1 hmem
      rw [ih _ (List.nodup_cons.mp hnd).2 hmem,
        CacheDir.stash_get_ne _ _ _ _ hga]

lemma CacheDir.foldl_stash_mtime (lf : CacheLeaf) (L : List CacheField)
    (me : CacheDir) :
    (L.foldl (fun m field =>
        m.stash_field field (lf.fields.get_field field)) me).mtime
      = me.mtime := by
  induction L generalizing me with
  | nil => rfl
  | cons a L ih =>
    simp only [List.foldl_cons]
    rw [ih, CacheDir.stash_mtime]

lemma CacheDir.merge_leaf_get (me : CacheDir) (leaf : CacheLeaf)
    (g : CacheField) :
    (me.merge_leaf leaf).fields.get_field g =
      if g = .ZeroTimeStamp
      then max (me.fields.get_field g) (leaf.fields.get_field g)
      else (me.fields.get_field g + leaf.fields.get_field g) % 2 ^ 64 := by
  have hfields : (me.merge_leaf leaf).fields =
      (FIELD_DATA_ORDER.foldl (fun m field =>
        m.stash_field field (leaf.fields.get_field field)) me).fields := by
    simp only [CacheDir.merge_leaf]
    split <;> rfl
  rw [hfields, CacheDir.foldl_stash_get_mem leaf FIELD_DATA_ORDER me g
    data_order_nodup (mem_data_order g)]

lemma CacheDir.merge_leaf_mtime (me : CacheDir) (leaf : CacheLeaf) :
    (me.merge_leaf leaf).mtime = max me.mtime leaf.mtime := by
  have hm : (FIELD_DATA_ORDER.foldl (fun m field =>
      m.stash_field field (leaf.fields.get_field field)) me).mtime
        = me.mtime :=
    CacheDir.foldl_stash_mtime leaf FIELD_DATA_ORDER me
  simp only [CacheDir.merge_leaf, apply_ite CacheDir.mtime, hm]
  rw [Nat.max_def]
  split_ifs <;> omega

/-! ## Merging a list of leaves -/

/-- Merging a list of leaves one by one into the default snapshot, exactly
what `read_dir` does with the leaves it reads successfully. -/
def mergeAll (leaves : List CacheLeaf) : CacheDir :=
  leaves.foldl CacheDir.merge_leaf default

lemma foldl_merge_get_zts (leaves : List CacheLeaf) (me : CacheDir) :
    (leaves.foldl CacheDir.merge_leaf me).fields.get_field .ZeroTimeStamp =
      (leaves.map (fun l => l.fields.get_field .ZeroTimeStamp)).foldl max
        (me.fields.get_field .ZeroTimeStamp) := by
  induction leaves generalizing me with
  | nil => rfl
  | cons l ls ih =>
    simp only [List.foldl_cons, List.map_cons]
    rw [ih, CacheDir.merge_leaf_get]
    simp

lemma foldl_merge_get_other (g : CacheField) (hg : g ≠ .ZeroTimeStamp)
    (leaves : List CacheLeaf) (me : CacheDir)
    (hme : me.fields.get_field g < 2 ^ 64) :
    (leaves.foldl CacheDir.merge_leaf me).fields.get_field g =
      (me.fields.get_field g +
        (leaves.map (fun l => l.fields.get_field g)).sum) % 2 ^ 64 := by
  induction leaves generalizing me with
  | nil =>
    simp only [List.foldl_nil, List.map_nil, List.sum_nil, Nat.add_zero]
    exact (Nat.mod_eq_of_lt hme).symm
  | cons l ls ih =>
    simp only [List.foldl_cons, List.map_cons, List.sum_cons]
    have hlt : (me.merge_leaf l).fields.get_field g < 2 ^ 64 := by
      rw [CacheDir.merge_leaf_get, if_neg hg]
      exact Nat.mod_lt _ (by norm_num)
    rw [ih (me.merge_leaf l) hlt, CacheDir.merge_leaf_get]
    simp only [if_neg hg]
    rw [Nat.mod_add_mod]
    congr 1
    omega

lemma foldl_merge_mtime (leaves : List CacheLeaf) (me : CacheDir) :
    (leaves.foldl CacheDir.merge_leaf me).mtime =
      (leaves.map CacheLeaf.mtime).foldl max me.mtime := by
  induction leaves generalizing me with
  | nil => rfl
  | cons l ls ih =>
    simp only [List.foldl_cons, List.map_cons]
    rw [ih, CacheDir.merge_leaf_mtime]

/-! ## Lemmas about `add_leaf` and the `read_dir` loop -/

/-- The leaves read successfully among a list of candidate paths, in
order. -/
def okLeaves (fs : Fs) (ps : List FsPath) : List CacheLeaf :=
  ps.filterMap (fun p => (CacheLeaf.read_file fs p).toOption)

lemma add_leaf_of_read_ok (fs : Fs) (me : CacheDir) (p : FsPath)
    (leaf : CacheLeaf) (h : CacheLeaf.read_file fs p = .ok leaf) :
    CacheDir.add_leaf fs me p = .ok (me.merge_leaf leaf) := by
  simp [CacheDir.add_leaf, h]

lemma add_leaf_of_not_found (fs : Fs) (me : CacheDir) (p : FsPath)
    (h : CacheLeaf.read_file fs p = .error (.IoError .notFound)) :
    CacheDir.add_leaf fs me p = .ok me := by
  simp [CacheDir.add_leaf, h]

lemma add_leaf_of_error (fs : Fs) (me : CacheDir) (p : FsPath)
    (e : ErrorKind) (h : CacheLeaf.read_file fs p = .error e)
    (hne : e ≠ .IoError .notFound) :
    CacheDir.add_leaf fs me p = .error e := by
  simp only [CacheDir.add_leaf, h]

lemma addLeavesLoop_ok (fs : Fs) (ps : List FsPath) (me snap : CacheDir)
    (h : addLeavesLoop fs me ps = .ok snap) :
    snap = (okLeaves fs ps).foldl CacheDir.merge_leaf me := by
  induction ps generalizing me with
  | nil =>
    simp only [addLeavesLoop] at h
    cases h
    rfl
  | cons p ps ih =>
    simp only [addLeavesLoop] at h
    cases hread : CacheLeaf.read_file fs p with
    | ok leaf =>
      rw [add_leaf_of_read_ok fs me p leaf hread] at h
      have hok : okLeaves fs (p :: ps) = leaf :: okLeaves fs ps := by
        simp [okLeaves, List.filterMap_cons, hread, Except.toOption]
      rw [hok, List.foldl_cons]
      exact ih _ h
    | error e =>
      by_cases he : e = .IoError .notFound
      · subst he
        rw [add_leaf_of_not_found fs me p hread] at h
        have hok : okLeaves fs (p :: ps) = okLeaves fs ps := by
          simp [okLeaves, List.filterMap_cons, hread, Except.toOption]
        rw [hok]
        exact ih _ h
      · rw [add_leaf_of_error fs me p e hread he] at h
        cases h

lemma addLeavesLoop_progress (fs : Fs) (ps : List FsPath) (me : CacheDir)
    (h : ∀ q ∈ ps,
      CacheLeaf.read_file fs q = .error (.IoError .notFound) ∨
        ∃ leaf, CacheLeaf.read_file fs q = .ok leaf) :
    ∃ me', addLeavesLoop fs me ps = .ok me' := by
  induction ps generalizing me with
  | nil => exact ⟨me, rfl⟩
  | cons p ps ih =>
    rcases h p (List.mem_cons_self p ps) with hnf | ⟨leaf, hok⟩
    · simp only [addLeavesLoop, add_leaf_of_not_found fs me p hnf]
      exact ih _ (fun q hq => h q (List.mem_cons_of_mem p hq))
    · simp only [addLeavesLoop, add_leaf_of_read_ok fs me p leaf hok]
      exact ih _ (fun q hq => h q (List.mem_cons_of_mem p hq))

lemma addLeavesLoop_append (fs : Fs) (ps qs : List FsPath) (me me' : CacheDir)
    (h : addLeavesLoop fs me ps = .ok me') :
    addLeavesLoop fs me (ps ++ qs) = addLeavesLoop fs me' qs := by
  induction ps generalizing me with
  | nil =>
    simp only [addLeavesLoop] at h
    cases h
    rfl
  | cons p ps ih =>
    simp only [addLeavesLoop] at h ⊢
    cases hadd : CacheDir.add_leaf fs me p with
    | ok me2 =>
      rw [hadd] at h
      exact ih _ h
    | error e =>
      rw [hadd] at h
      cases h

lemma addLeavesLoop_abort (fs : Fs) (pre : List FsPath) (p : FsPath)
    (post : List FsPath) (me : CacheDir) (e : ErrorKind)
    (hpre : ∀ q ∈ pre,
      CacheLeaf.read_file fs q = .error (.IoError .notFound) ∨
        ∃ leaf, CacheLeaf.read_file fs q = .ok leaf)
    (hp : CacheLeaf.read_file fs p = .error e)
    (hne : e ≠ .IoError .notFound) :
    addLeavesLoop fs me (pre ++ p :: post) = .error e := by
  obtain ⟨me', hme'⟩ := addLeavesLoop_progress fs pre me hpre
  rw [addLeavesLoop_append fs pre (p :: post) me me' hme']
  simp only [addLeavesLoop, add_leaf_of_error fs me' p e hp hne]

/-! ## Lemmas about the field read loop -/

lemma data_order_length : FIELD_DATA_ORDER.length = 32 := rfl

lemma data_order_getD_as_usize :
    ∀ k, k < 32 → (FIELD_DATA_ORDER.getD k .None).as_usize = k := by decide

lemma data_order_drop_cons :
    ∀ k, k < 32 → FIELD_DATA_ORDER.drop k =
      (FIELD_DATA_ORDER.getD k .None) :: FIELD_DATA_ORDER.drop (k + 1) := by
  decide

lemma data_order_drop_ge (k : Nat) (hk : 32 ≤ k) :
    FIELD_DATA_ORDER.drop k = [] := by
  apply List.drop_eq_nil_of_le
  rw [data_order_length]
  exact hk

lemma as_usize_lt (g : CacheField) : g.as_usize < 32 := g.as_fin.isLt

lemma readFieldsLoop_drop_ok (f : FsPath) (ls : List String) :
    ∀ (k : Nat) (acc : CacheFieldData),
      (∀ l ∈ ls, (parseU64 (trimNewline l)).isSome) →
      ∃ d, readFieldsLoop f (FIELD_DATA_ORDER.drop k) ls acc = .ok d ∧
        ∀ g : CacheField,
          d.get_field g =
            if k ≤ g.as_usize ∧ g.as_usize < k + ls.length
            then (parseU64 (trimNewline (ls.getD (g.as_usize - k) ""))).getD 0
            else acc.get_field g := by
  induction ls with
  | nil =>
    intro k acc _
    refine ⟨acc, ?_, ?_⟩
    · cases FIELD_DATA_ORDER.drop k <;> rfl
    · intro g
      rw [if_neg]
      rintro ⟨h1, h2⟩
      simp only [List.length_nil] at h2
      omega
  | cons l ls ih =>
    intro k acc hp
    by_cases hk : k < 32
    · rw [data_order_drop_cons k hk]
      have hparse : (parseU64 (trimNewline l)).isSome :=
        hp l (List.mem_cons_self l ls)
      obtain ⟨v, hv⟩ := Option.isSome_iff_exists.mp hparse
      simp only [readFieldsLoop, hv]
      obtain ⟨d, hd, hget⟩ :=
        ih (k + 1) (acc.set_field (FIELD_DATA_ORDER.getD k .None) v)
          (fun x hx => hp x (List.mem_cons_of_mem l hx))
      refine ⟨d, hd, ?_⟩
      intro g
      rw [hget g]
      by_cases hcase : k + 1 ≤ g.as_usize ∧ g.as_usize < k + 1 + ls.length
      · rw [if_pos hcase,
          if_pos (by simp only [List.length_cons]; omega)]
        have harith : g.as_usize - k = g.as_usize - (k + 1) + 1 := by omega
        rw [harith, List.getD_cons_succ]
      · rw [if_neg hcase]
        by_cases hg : g.as_usize = k
        · have hgf : g = FIELD_DATA_ORDER.getD k .None :=
            CacheField.as_usize_injective _ _
              (by rw [hg, data_order_getD_as_usize k hk])
          rw [if_pos (by simp only [List.length_cons]; omega)]
          have hidx : g.as_usize - k = 0 := by omega
          rw [hidx, List.getD_cons_zero, hv, hgf,
            CacheFieldData.get_set_self]
          rfl
        · have houter :
              ¬(k ≤ g.as_usize ∧ g.as_usize < k + (l :: ls).length) := by
            simp only [List.length_cons]
            omega
          rw [if_neg houter,
            CacheFieldData.get_set_ne _ _ _ _ (by
              intro hEq
              apply hg
              rw [hEq, data_order_getD_as_usize k hk])]
    · rw [data_order_drop_ge k (by omega)]
      refine ⟨acc, rfl, ?_⟩
      intro g
      rw [if_neg]
      have := as_usize_lt g
      rintro ⟨h1, h2⟩
      omega

lemma readFieldsLoop_drop_err (f : FsPath) (i : Nat) :
    ∀ (ls : List String) (k : Nat) (acc : CacheFieldData),
      i < ls.length → k + i < 32 →
      (∀ j, j < i → (parseU64 (trimNewline (ls.getD j ""))).isSome) →
      parseU64 (trimNewline (ls.getD i "")) = none →
      readFieldsLoop f (FIELD_DATA_ORDER.drop k) ls acc =
        .error (.ParseU64Error (trimNewline (ls.getD i "")) (k + i) f) := by
  induction i with
  | zero =>
    intro ls k acc hi hk hpre hbad
    cases ls with
    | nil => simp at hi
    | cons l ls =>
      rw [data_order_drop_cons k (by omega)]
      simp only [List.getD_cons_zero] at hbad ⊢
      simp only [readFieldsLoop, hbad]
      rw [data_order_getD_as_usize k (by omega)]
      rfl
  | succ i ih =>
    intro ls k acc hi hk hpre hbad
    cases ls with
    | nil => simp at hi
    | cons l ls =>
      rw [data_order_drop_cons k (by omega)]
      have hparse := hpre 0 (Nat.succ_pos i)
      simp only [List.getD_cons_zero] at hparse
      obtain ⟨v, hv⟩ := Option.isSome_iff_exists.mp hparse
      simp only [readFieldsLoop, hv]
      simp only [List.getD_cons_succ] at hbad ⊢
      have hrec := ih ls (k + 1) (acc.set_field (FIELD_DATA_ORDER.getD k .None) v)
        (by simpa using hi) (by omega)
        (fun j hj => by
          have := hpre (j + 1) (by omega)
          simpa using this)
        hbad
      have harith : k + 1 + i = k + (i + 1) := by omega
      rw [harith] at hrec
      exact hrec

lemma readFieldsLoop_take (f : FsPath) (fields : List CacheField) :
    ∀ (ls : List String) (acc : CacheFieldData),
      readFieldsLoop f fields ls acc =
        readFieldsLoop f fields (ls.take fields.length) acc := by
  induction fields with
  | nil =>
    intro ls acc
    cases ls <;> rfl
  | cons fld fields ih =>
    intro ls acc
    cases ls with
    | nil => rfl
    | cons l ls =>
      simp only [List.length_cons, List.take_succ_cons, readFieldsLoop]
      cases hparse : parseU64 (trimNewline l) with
      | none => rfl
      | some v => exact ih ls _

/-! ## Structure extensionality and writer-fold helpers -/

lemma as_fin_surjective : ∀ i : Fin 32, ∃ g : CacheField, g.as_fin = i := by
  decide

lemma CacheFieldData.eq_of_items (a b : CacheFieldData)
    (h : a.items = b.items) : a = b := by
  cases a
  cases b
  cases h
  rfl

lemma CacheDir.eq_of_parts (a b : CacheDir) (hf : a.fields = b.fields)
    (hm : a.mtime = b.mtime) : a = b := by
  cases a
  cases b
  cases hf
  cases hm
  rfl

lemma foldl_skip_filter {α β : Type} (g : α → β) (p : α → Bool)
    (l : List α) (init : List β) :
    l.foldl (fun out a => if p a then out else out ++ [g a]) init =
      init ++ (l.filter (fun a => !p a)).map g := by
  induction l generalizing init with
  | nil => simp
  | cons a l ih =>
    simp only [List.foldl_cons]
    by_cases hpa : p a
    · rw [if_pos hpa, ih]
      simp [List.filter_cons, hpa]
    · rw [if_neg hpa, ih]
      simp [List.filter_cons, hpa]

lemma if_if_same {β : Type} (a b : Bool) (x y : β) :
    (if a then x else if b then x else y) = if a || b then x else y := by
  cases a <;> cases b <;> simp

lemma skip_pred_eq (never always z : Bool) :
    (!(never || (!always && z))) = (!never && (always || !z)) := by
  cases never <;> cases always <;> cases z <;> rfl

/-! ## Concrete fixtures used by the witnesses -/

/-- A stand-in for the local-timezone timestamp rendering. -/
def tsRenderStub : Int → String := fun _ => "1970-01-01 00:00:00 +00:00"

/-- A concrete filesystem: a root stats file and one shard stats file, the
other fifteen shards absent. -/
def fsExample : Fs := fun p =>
  if p = ["cc", "stats"] then .file 100 ["5\n", "3\n"]
  else if p = ["cc", "0", "stats"] then .file 200 ["2\n", "4\n"]
  else .ioErr .notFound

/-- A concrete filesystem whose root stats file fails to open with a
permission error. -/
def fsPermErr : Fs := fun p =>
  if p = ["cc", "stats"] then .ioErr .permissionDenied
  else .ioErr .notFound

/-- A concrete filesystem where every path is a directory. -/
def fsDirExample : Fs := fun _ => .dir

/-- A concrete filesystem with a stats file whose second line is not a
number. -/
def fsBadLine : Fs := fun p =>
  if p = ["cc", "stats"] then .file 100 ["5\n", "x7\n"]
  else .ioErr .notFound

/-- Thirty-three raw lines: thirty-two numeric ones and a malformed
extra. -/
def longLines : List String := List.replicate 32 "1\n" ++ ["oops\n"]

/-- A concrete filesystem with a 33-line stats file. -/
def fsLong : Fs := fun p =>
  if p = ["cc", "stats"] then .file 100 longLines
  else .ioErr .notFound

/-- The same filesystem truncated to the first 32 lines. -/
def fsLongTrunc : Fs := fun p =>
  if p = ["cc", "stats"] then .file 100 (longLines.take 32)
  else .ioErr .notFound

/-- A concrete leaf with one nonzero counter. -/
def leafA : CacheLeaf :=
  ⟨(default : CacheFieldData).set_field .StdOut 3, 50⟩

/-- A concrete leaf with a counter and a zero-timestamp value. -/
def leafB : CacheLeaf :=
  ⟨((default : CacheFieldData).set_field .StdOut 4).set_field
    .ZeroTimeStamp 9, 70⟩

/-- The snapshot that `read_dir` produces on `fsExample`. -/
def dirSnapExample : CacheDir :=
  mergeAll (okLeaves fsExample (candidatePaths ["cc"]))

/-- A concrete filesystem whose root and first-shard stats files each hold
`u64::MAX` on the line of ordinal 1 (the `StdOut` counter), so that the
aggregated sum overflows a `u64`. -/
def fsOverflow : Fs := fun p =>
  if p = ["cc", "stats"] then
    .file 0 ["0\n", "18446744073709551615\n"]
  else if p = ["cc", "0", "stats"] then
    .file 0 ["0\n", "18446744073709551615\n"]
  else .ioErr .notFound

/-! ## Claim theorems -/

/-- C1 (amended): whenever `read_dir` succeeds, the snapshot is the
in-order merge of the successfully read leaves; merging any list of leaves
into the default snapshot yields the maximum of the leaves'
`ZeroTimeStamp` values (zero when no leaf contributes), for every other
field the sum of that field's values across the leaves reduced modulo
`2^64` (the `u64` addition wraps), hence exactly the sum whenever that sum
fits in 64 bits, and the maximum of the leaf mtimes (epoch zero when no
leaf contributes). -/
theorem c1_read_directory_merge_semantics (fs : Fs) (dir : FsPath)
    (snap : CacheDir) (h : CacheDir.read_dir fs dir = .ok snap) :
    snap = mergeAll (okLeaves fs (candidatePaths dir)) ∧
    ∀ leaves : List CacheLeaf,
      (mergeAll leaves).fields.get_field .ZeroTimeStamp =
        (leaves.map (fun l => l.fields.get_field .ZeroTimeStamp)).foldl
          max 0 ∧
      (∀ g : CacheField, g ≠ .ZeroTimeStamp →
        (mergeAll leaves).fields.get_field g =
          (leaves.map (fun l => l.fields.get_field g)).sum % 2 ^ 64) ∧
      (∀ g : CacheField, g ≠ .ZeroTimeStamp →
        (leaves.map (fun l => l.fields.get_field g)).sum < 2 ^ 64 →
        (mergeAll leaves).fields.get_field g =
          (leaves.map (fun l => l.fields.get_field g)).sum) ∧
      (mergeAll leaves).mtime = (leaves.map CacheLeaf.mtime).foldl max 0 := by
  have hmod : ∀ (leaves : List CacheLeaf) (g : CacheField),
      g ≠ .ZeroTimeStamp →
      (mergeAll leaves).fields.get_field g =
        (leaves.map (fun l => l.fields.get_field g)).sum % 2 ^ 64 := by
    intro leaves g hg
    have hd : (default : CacheDir).fields.get_field g < 2 ^ 64 := by
      rw [CacheDir.default_fields_get]
      norm_num
    have h1 := foldl_merge_get_other g hg leaves default hd
    rw [CacheDir.default_fields_get, Nat.zero_add] at h1
    exact h1
  constructor
  · exact addLeavesLoop_ok fs (candidatePaths dir) default snap h
  · intro leaves
    refine ⟨?_, hmod leaves, ?_, ?_⟩
    · have h0 := foldl_merge_get_zts leaves default
      rw [CacheDir.default_fields_get] at h0
      exact h0
    · intro g hg hfit
      rw [hmod leaves g hg]
      exact Nat.mod_eq_of_lt hfit
    · have h2 := foldl_merge_mtime leaves default
      rw [CacheDir.default_mtime] at h2
      exact h2

theorem c1_read_directory_merge_semantics_witness :
    dirSnapExample = mergeAll (okLeaves fsExample (candidatePaths ["cc"])) ∧
    (mergeAll [leafA, leafB]).fields.get_field .StdOut =
      ([leafA, leafB].map (fun l => l.fields.get_field .StdOut)).sum := by
  have h := c1_read_directory_merge_semantics fsExample ["cc"]
    dirSnapExample (by decide)
  exact ⟨h.1, (h.2 [leafA, leafB]).2.2.1 .StdOut (by decide) (by decide)⟩

/-- C1 counterexample: a root stats file and one shard stats file each
record `2^64 - 1` for the `StdOut` counter (ordinal 1); the aggregated
snapshot holds the wrapped `u64` sum `2^64 - 2`, not the claim's exact sum
`2^65 - 2`, on a `read_dir` run over exactly these leaves. -/
theorem c1_sum_overflow_counterexample :
    CacheDir.read_dir fsOverflow ["cc"] =
      .ok (mergeAll (okLeaves fsOverflow (candidatePaths ["cc"]))) ∧
    (mergeAll (okLeaves fsOverflow
        (candidatePaths ["cc"]))).fields.get_field .StdOut = 2 ^ 64 - 2 ∧
    ((okLeaves fsOverflow (candidatePaths ["cc"])).map
        (fun l => l.fields.get_field .StdOut)).sum = 2 ^ 65 - 2 ∧
    (mergeAll (okLeaves fsOverflow
        (candidatePaths ["cc"]))).fields.get_field .StdOut ≠
      ((okLeaves fsOverflow (candidatePaths ["cc"])).map
        (fun l => l.fields.get_field .StdOut)).sum := by
  refine ⟨?_, ?_, ?_, ?_⟩ <;> decide

/-- C3: `read_dir` attempts exactly the root stats path and the sixteen
shard stats paths in order; a `NotFound` read of any path leaves the
snapshot unchanged and aggregation continues, while any other error from a
candidate (all earlier candidates having read fine or been absent) aborts
the directory read with exactly that error. -/
theorem c3_read_directory_error_policy (fs : Fs) (dir : FsPath) :
    CacheDir.read_dir fs dir =
        addLeavesLoop fs default (candidatePaths dir) ∧
    (∀ me p, CacheLeaf.read_file fs p = .error (.IoError .notFound) →
      CacheDir.add_leaf fs me p = .ok me) ∧
    (∀ me p e, CacheLeaf.read_file fs p = .error e →
      e ≠ .IoError .notFound → CacheDir.add_leaf fs me p = .error e) ∧
    (∀ pre p post e, candidatePaths dir = pre ++ p :: post →
      (∀ q ∈ pre,
        CacheLeaf.read_file fs q = .error (.IoError .notFound) ∨
          ∃ leaf, CacheLeaf.read_file fs q = .ok leaf) →
      CacheLeaf.read_file fs p = .error e → e ≠ .IoError .notFound →
      CacheDir.read_dir fs dir = .error e) := by
  refine ⟨rfl, add_leaf_of_not_found fs, ?_, ?_⟩
  · intro me p e h hne
    exact add_leaf_of_error fs me p e h hne
  · intro pre p post e hsplit hpre hp hne
    have hdef : CacheDir.read_dir fs dir =
        addLeavesLoop fs default (candidatePaths dir) := rfl
    rw [hdef, hsplit]
    exact addLeavesLoop_abort fs pre p post default e hpre hp hne

theorem c3_read_directory_error_policy_witness :
    CacheDir.read_dir fsPermErr ["cc"] =
      .error (.IoError .permissionDenied) :=
  (c3_read_directory_error_policy fsPermErr ["cc"]).2.2.2 []
    (["cc"] ++ ["stats"])
    (HEX_DIGITS.map (fun c => ["cc"] ++ [c, "stats"]))
    (.IoError .permissionDenied) rfl
    (by intro q hq; exact absurd hq (List.not_mem_nil q))
    rfl (by decide)

/-- C4: a path that resolves to a directory makes `read_file` fail with the
dedicated `CacheLeafNonFile` error carrying that path, with no line reads
attempted. -/
theorem c4_read_leaf_rejects_directory (fs : Fs) (p : FsPath)
    (h : fs p = .dir) :
    CacheLeaf.read_file fs p = .error (.CacheLeafNonFile p) := by
  simp [CacheLeaf.read_file, h]

theorem c4_read_leaf_rejects_directory_witness :
    CacheLeaf.read_file fsDirExample ["cc", "stats"] =
      .error (.CacheLeafNonFile ["cc", "stats"]) :=
  c4_read_leaf_rejects_directory fsDirExample ["cc", "stats"] rfl

/-- C5: if every line before ordinal `i` parses and the (present) line at
ordinal `i` does not, `read_file` fails with a `ParseU64Error` carrying
exactly the trimmed offending text, the ordinal `i`, and the path. -/
theorem c5_read_leaf_parse_error (fs : Fs) (p : FsPath) (mtime : Nat)
    (lines : List String) (i : Nat) (hfile : fs p = .file mtime lines)
    (hi : i < lines.length) (hi32 : i < 32)
    (hpre : ∀ j, j < i → (parseU64 (trimNewline (lines.getD j ""))).isSome)
    (hbad : parseU64 (trimNewline (lines.getD i "")) = none) :
    CacheLeaf.read_file fs p =
      .error (.ParseU64Error (trimNewline (lines.getD i "")) i p) := by
  have hloop := readFieldsLoop_drop_err p i lines 0 default hi
    (by omega) hpre hbad
  rw [List.drop_zero] at hloop
  simp [CacheLeaf.read_file, hfile, hloop]

theorem c5_read_leaf_parse_error_witness :
    CacheLeaf.read_file fsBadLine ["cc", "stats"] =
      .error (.ParseU64Error "x7" 1 ["cc", "stats"]) :=
  c5_read_leaf_parse_error fsBadLine ["cc", "stats"] 100 ["5\n", "x7\n"] 1
    rfl (by decide) (by decide) (by decide) (by decide)

/-- C6 (amended): `format_value` on the KibibytesScaled field applies the
three-branch size rule to the `f64` nearest to `v`; for every `v` below
`2^53` (hence in particular for the whole Kb and Mb ranges) this coincides
with the exact spec rendering `specKibibytesRender`, and the seven spec
fixtures hold; for larger `v` the rendered quotient is that of the `f64`
approximation (see the counterexample). -/
theorem c6_format_value_kibibytes_scaled (tsR : Int → String) (v : Nat) :
    (v < 2 ^ 53 →
      CacheField.format_value tsR .TotalSize v = specKibibytesRender v) ∧
    CacheField.format_value tsR .TotalSize 0 = "0 Kb" ∧
    CacheField.format_value tsR .TotalSize 100 = "100 Kb" ∧
    CacheField.format_value tsR .TotalSize 10000 = "10000 Kb" ∧
    CacheField.format_value tsR .TotalSize 15000 = "14.65 Mb" ∧
    CacheField.format_value tsR .TotalSize 150000 = "146.48 Mb" ∧
    CacheField.format_value tsR .TotalSize 1500000 = "1464.84 Mb" ∧
    CacheField.format_value tsR .TotalSize 15000000 = "14.31 Gb" := by
  refine ⟨?_, rfl, rfl, rfl, rfl, rfl, rfl, rfl⟩
  intro hv
  have hD : f64ofNat v = v := by rw [f64ofNat, if_pos hv]
  simp only [CacheField.format_value, CacheField.metadata, hD,
    specKibibytesRender]

theorem c6_format_value_kibibytes_scaled_witness :
    CacheField.format_value tsRenderStub .TotalSize 15000 =
      specKibibytesRender 15000 :=
  (c6_format_value_kibibytes_scaled tsRenderStub 15000).1 (by decide)

/-- C6 counterexample: at `v = 18014398509497713` (just above `2^53`) the
code formats the `f64`-rounded value, printing "17179869184.01 Gb", while
the exact `v/1024/1024` to two decimals demanded by the claim is
"17179869184.02 Gb". -/
theorem c6_format_value_kibibytes_exact_counterexample :
    CacheField.format_value tsRenderStub .TotalSize 18014398509497713 =
      "17179869184.01 Gb" ∧
    specKibibytesRender 18014398509497713 = "17179869184.02 Gb" ∧
    CacheField.format_value tsRenderStub .TotalSize 18014398509497713 ≠
      specKibibytesRender 18014398509497713 := by
  refine ⟨?_, ?_, ?_⟩ <;> decide

/-- C7: the claim asserts that `format_value` never fails or panics and
falls back to `"<value> (ts)"` whenever the incoming integer cannot
represent a valid timestamp; but the code's only guard is
`parse::<i64>()`, and for the value 9000000000000 — which fits an `i64`
yet exceeds chrono 0.4's largest representable timestamp — the
`Local.timestamp` call inside the `TimeStamp` branch panics
(`timestamp_opt(..).unwrap()`), so neither a rendered string nor the
fallback is produced; only above `2^63` does the fallback fire. This
evaluates the faithful model at that failing input. -/
theorem c7_format_value_chrono_panic :
    (9000000000000 : Nat) < 2 ^ 63 ∧
    chronoTimestampPanics (Int.ofNat 9000000000000) = true ∧
    CacheField.format_value_with_chrono tsRenderStub .ZeroTimeStamp
      9000000000000 = none ∧
    CacheField.format_value_with_chrono tsRenderStub .ZeroTimeStamp
      (2 ^ 63) = some (toString (2 ^ 63 : Nat) ++ " (ts)") := by
  refine ⟨?_, ?_, ?_, ?_⟩ <;> decide

/-- C8: merging is order independent — permuted leaf lists merge to the
same snapshot (all 32 field values and the mtime). -/
theorem c8_merge_order_independent (l1 l2 : List CacheLeaf)
    (h : l1.Perm l2) : mergeAll l1 = mergeAll l2 := by
  have hfield : ∀ g : CacheField,
      (mergeAll l1).fields.get_field g =
        (mergeAll l2).fields.get_field g := by
    intro g
    simp only [mergeAll]
    by_cases hg : g = .ZeroTimeStamp
    · subst hg
      rw [foldl_merge_get_zts, foldl_merge_get_zts]
      exact (h.map _).foldl_op_eq
    · have hd : (default : CacheDir).fields.get_field g < 2 ^ 64 := by
        rw [CacheDir.default_fields_get]
        norm_num
      rw [foldl_merge_get_other g hg l1 default hd,
        foldl_merge_get_other g hg l2 default hd,
        (h.map _).sum_eq]
  have hmt : (mergeAll l1).mtime = (mergeAll l2).mtime := by
    simp only [mergeAll]
    rw [foldl_merge_mtime, foldl_merge_mtime]
    exact (h.map _).foldl_op_eq
  apply CacheDir.eq_of_parts
  · apply CacheFieldData.eq_of_items
    funext i
    obtain ⟨g, hgi⟩ := as_fin_surjective i
    rw [← hgi]
    exact hfield g
  · exact hmt

theorem c8_merge_order_independent_witness :
    mergeAll [leafA, leafB] = mergeAll [leafB, leafA] :=
  c8_merge_order_independent [leafA, leafB] [leafB, leafA]
    (List.Perm.swap leafB leafA [])

/-- C9: `write_raw` emits the header then exactly one `"<id>\t<value>"`
line per display-order field, skipping precisely the `NeverShow`-flagged
fields (zero-valued fields are not omitted); `write_pretty` skips the
`NeverShow`-flagged fields and additionally every field whose value is
zero unless it is flagged `AlwaysShow`. -/
theorem c9_write_raw_pretty_filters (tsR : Int → String)
    (c : CacheFieldData) (mtime : Nat) :
    write_raw c mtime =
      ("stats_updated_timestamp\t" ++ toString mtime) ::
        (FIELD_DISPLAY_ORDER.filter
            (fun f => !f.metadata.is_flag_never)).map
          (fun f => f.metadata.id ++ "\t" ++ toString (c.get_field f)) ∧
    write_pretty tsR c mtime =
      (padRight "stats updated" 30 ++ " " ++
          padLeft (tsR (Int.ofNat mtime)) 9) ::
        (FIELD_DISPLAY_ORDER.filter
            (fun f => !f.metadata.is_flag_never &&
              (f.metadata.is_flag_always || !(c.get_field f == 0)))).map
          (fun f => padRight f.metadata.message 30 ++ " " ++
            padLeft (f.format_value tsR (c.get_field f)) 9) := by
  constructor
  · have hraw := foldl_skip_filter
      (fun fv : CacheField × Nat =>
        fv.1.metadata.id ++ "\t" ++ toString fv.2)
      (fun fv => fv.1.metadata.is_flag_never)
      (iterDisplay c)
      ["stats_updated_timestamp\t" ++ toString mtime]
    refine hraw.trans ?_
    rw [iterDisplay, List.filter_map, List.map_map]
    rfl
  · have hpretty := foldl_skip_filter
      (fun fv : CacheField × Nat =>
        padRight fv.1.metadata.message 30 ++ " " ++
          padLeft (fv.1.format_value tsR fv.2) 9)
      (fun fv => fv.1.metadata.is_flag_never ||
        (!fv.1.metadata.is_flag_always && fv.2 == 0))
      (iterDisplay c)
      [padRight "stats updated" 30 ++ " " ++
        padLeft (tsR (Int.ofNat mtime)) 9]
    have hdef : write_pretty tsR c mtime =
        (iterDisplay c).foldl
          (fun out fv =>
            if fv.1.metadata.is_flag_never ||
                (!fv.1.metadata.is_flag_always && fv.2 == 0) then out
            else out ++ [padRight fv.1.metadata.message 30 ++ " " ++
              padLeft (fv.1.format_value tsR fv.2) 9])
          [padRight "stats updated" 30 ++ " " ++
            padLeft (tsR (Int.ofNat mtime)) 9] := by
      simp only [write_pretty, if_if_same]
    rw [hdef, hpretty, iterDisplay, List.filter_map, List.map_map]
    simp only [Function.comp_def, skip_pred_eq]
    rfl

/-- C10: a file longer than 32 lines whose first 32 lines all parse reads
successfully, and the result equals reading just the first 32 lines —
later content, malformed or not, is ignored. -/
theorem c10_read_leaf_ignores_extra_lines (fs fs' : Fs) (p : FsPath)
    (mtime : Nat) (lines : List String)
    (hfile : fs p = .file mtime lines)
    (hfile' : fs' p = .file mtime (lines.take 32))
    (_hlen : 32 < lines.length)
    (hparse : ∀ l ∈ lines.take 32, (parseU64 (trimNewline l)).isSome) :
    (∃ leaf, CacheLeaf.read_file fs p = .ok leaf) ∧
    CacheLeaf.read_file fs p = CacheLeaf.read_file fs' p := by
  have htrunc := readFieldsLoop_take p FIELD_DATA_ORDER lines default
  rw [data_order_length] at htrunc
  have heq : CacheLeaf.read_file fs p = CacheLeaf.read_file fs' p := by
    simp only [CacheLeaf.read_file, hfile, hfile', htrunc]
  refine ⟨?_, heq⟩
  obtain ⟨d, hd, _⟩ := readFieldsLoop_drop_ok p (lines.take 32) 0
    default hparse
  rw [List.drop_zero] at hd
  refine ⟨⟨d, mtime⟩, ?_⟩
  rw [heq]
  simp [CacheLeaf.read_file, hfile', hd]

theorem c10_read_leaf_ignores_extra_lines_witness :
    (∃ leaf, CacheLeaf.read_file fsLong ["cc", "stats"] = .ok leaf) ∧
    CacheLeaf.read_file fsLong ["cc", "stats"] =
      CacheLeaf.read_file fsLongTrunc ["cc", "stats"] :=
  c10_read_leaf_ignores_extra_lines fsLong fsLongTrunc ["cc", "stats"]
    100 longLines rfl rfl (by decide) (by decide)

end CcacheStats
